import Mathlib

set_option maxRecDepth 4096

/-
Verification of the SBFP 16-bit floating-point library
(src/sbfp_const.h, src/sbfp_lib.h, src/sbfp_lib.c).

Doubles are modelled as exact rational numbers: every finite double is a
dyadic rational, and every double operation the library performs on values
in the ranges that occur here (negation, halving, doubling, scaling by a
power of two, subtracting the integer part, comparisons, products and sums
of decoded 16-bit values) is exact in IEEE double precision, so the
rational model computes the very values the C program computes.  A cast of
a nonnegative double to an integer type truncates toward zero, modelled by
ctrunc.

The normalization loop inside double_to_sbfp only ever halves its operand,
so it never terminates when the magnitude is below 1 (and at least the
denormal threshold).  The loop is therefore modelled with an explicit fuel
bound: a result of none means the loop has not finished within the given
fuel, and a result of none at every fuel means the C loop runs forever.
The fuel is threaded through every function that calls double_to_sbfp.
All other loops are bounded in the source (the fraction extraction runs
exactly SBFP_BIT_COUNT_FRAC times) and are modelled by plain recursion.
-/

/- Constants from sbfp_const.h. -/

def SBFP_BIT_COUNT_SIGN : ℕ := 1

def SBFP_BIT_COUNT_EXPO : ℕ := 5

def SBFP_BIT_COUNT_FRAC : ℕ := 10

def SBFP_BIAS : ℕ := 2 ^ (SBFP_BIT_COUNT_EXPO - 1) - 1

def SBFP_NEG_INF : ℕ := 0x7C00

def SBFP_POS_INF : ℕ := 0x3C00

def SBFP_NAN : ℕ := 0x3C01

/-- The C cast of a double to an integer type truncates toward zero. -/
def ctrunc (x : ℚ) : ℤ := if 0 ≤ x then ⌊x⌋ else -⌊-x⌋

/-- Loop body of extract_frac (sbfp_lib.c lines 59-75): the counted for
loop doubles the fractional remainder, shifting one bit into the result
per iteration. -/
def extract_frac_go : ℕ → ℚ → ℕ → ℕ
  | 0, _, fracInt => fracInt
  | count + 1, fracDbl, fracInt =>
    let fracInt2 := fracInt * 2
    let temp := fracDbl * 2
    if 1 ≤ temp then
      extract_frac_go count (temp - (ctrunc temp : ℚ)) (fracInt2 + 1)
    else
      extract_frac_go count temp fracInt2

/-- extract_frac (sbfp_lib.c lines 54-78): extracts the first
SBFP_BIT_COUNT_FRAC binary fraction bits of a double, truncated. -/
def extract_frac (value : ℚ) : ℕ :=
  extract_frac_go SBFP_BIT_COUNT_FRAC (value - (ctrunc value : ℚ)) 0

/-- The while loop of double_to_sbfp (sbfp_lib.c lines 162-166): halve the
value, counting iterations, until it lies in [1, 2).  The loop condition is
checked before each iteration; fuel bounds the number of iterations, and
none means the bound was reached with the condition still false.  Note the
source only ever divides by 2, so a value below 1 can never reach [1, 2). -/
def norm_loop : ℕ → ℚ → Option (ℕ × ℚ)
  | 0, dblValue =>
    if 1 ≤ dblValue ∧ dblValue < 2 then some (0, dblValue) else none
  | fuel + 1, dblValue =>
    if 1 ≤ dblValue ∧ dblValue < 2 then some (0, dblValue)
    else (norm_loop fuel (dblValue / 2)).map fun r => (r.1 + 1, r.2)

/-- double_to_sbfp (sbfp_lib.c lines 87-189).  Sign extraction treats 0 as
positive; magnitudes whose whole part reaches 2 ^ (SBFP_BIAS + 1) saturate
to the signed infinity pattern; small magnitudes are denormalized; all
remaining magnitudes go through the normalization while loop (modelled by
norm_loop with fuel).  The three fields are concatenated by the shifts of
lines 177-186. -/
def double_to_sbfp (fuel : ℕ) (dblValue : ℚ) : Option ℕ :=
  let sbfpSign : ℕ := if dblValue < 0 then 1 else 0
  let mag : ℚ := if dblValue < 0 then -dblValue else dblValue
  let dblValueWhole : ℤ := ctrunc mag
  if (2 : ℤ) ^ (SBFP_BIAS + 1) ≤ dblValueWhole then
    some (if sbfpSign = 1 then SBFP_NEG_INF else SBFP_POS_INF)
  else if dblValueWhole = 0 ∧
      mag - (ctrunc mag : ℚ) <
        ((2 ^ SBFP_BIT_COUNT_FRAC + 1 : ℚ) / 2 ^ SBFP_BIT_COUNT_FRAC) / 2 ^ (SBFP_BIAS - 1) then
    some ((sbfpSign * 2 ^ SBFP_BIT_COUNT_EXPO + 0) * 2 ^ SBFP_BIT_COUNT_FRAC +
      extract_frac (mag * 2 ^ (SBFP_BIAS - 1)))
  else
    match norm_loop fuel mag with
    | none => none
    | some (E, normMag) =>
      some ((sbfpSign * 2 ^ SBFP_BIT_COUNT_EXPO + (E + SBFP_BIAS)) * 2 ^ SBFP_BIT_COUNT_FRAC +
        extract_frac normMag)

/-- The value of a double expression: finite (an exact rational), one of
the two infinities (DOUBLE_POS_INF, DOUBLE_NEG_INF) or NaN (DOUBLE_NAN),
as produced by sbfp_to_double. -/
inductive DoubleVal where
  | fin (q : ℚ)
  | posInf
  | negInf
  | nan
deriving DecidableEq

/-- sbfp_to_double (sbfp_lib.c lines 198-283): unpack fraction, exponent
and sign by successive masking and shifting; an all-ones exponent field
yields an infinity (by sign) or NaN (nonzero fraction); otherwise the
value is rebuilt from the normalized or denormalized M and E formulas. -/
def sbfp_to_double (sbfpValue : ℕ) : DoubleVal :=
  let sbfpFrac := sbfpValue % 2 ^ SBFP_BIT_COUNT_FRAC
  let shifted1 := sbfpValue / 2 ^ SBFP_BIT_COUNT_FRAC
  let sbfpExpo := shifted1 % 2 ^ SBFP_BIT_COUNT_EXPO
  let shifted2 := shifted1 / 2 ^ SBFP_BIT_COUNT_EXPO
  let sbfpSign := shifted2 % 2 ^ SBFP_BIT_COUNT_SIGN
  if sbfpExpo = 2 ^ SBFP_BIT_COUNT_EXPO - 1 then
    if sbfpFrac = 0 then
      if sbfpSign = 0 then DoubleVal.posInf else DoubleVal.negInf
    else
      DoubleVal.nan
  else
    let E : ℤ := if sbfpExpo = 0 then 1 - (SBFP_BIAS : ℤ) else (sbfpExpo : ℤ) - SBFP_BIAS
    let M : ℚ :=
      if sbfpExpo = 0 then (sbfpFrac : ℚ) / 2 ^ SBFP_BIT_COUNT_FRAC
      else 1 + (sbfpFrac : ℚ) / 2 ^ SBFP_BIT_COUNT_FRAC
    let dblValue : ℚ := if E < 0 then M / 2 ^ (-E).toNat else M * 2 ^ E.toNat
    DoubleVal.fin (if sbfpSign = 1 then -dblValue else dblValue)

/-- handle_special_mul (sbfp_lib.c lines 293-381).  The switch statement
has no break statements, so control falls through: the block of the
matching case runs, followed by the blocks of every later case including
default.  Each let below is one case block, guarded by the set of first
operands whose execution reaches it; the final value is whatever the last
executed assignment left. -/
def handle_special_mul (sbfpValue1 sbfpValue2 : ℕ) : ℕ :=
  let p0 : ℕ := 0
  let p1 :=
    if sbfpValue1 = SBFP_POS_INF then
      if sbfpValue2 = SBFP_POS_INF then SBFP_POS_INF
      else if sbfpValue2 = SBFP_NEG_INF then SBFP_NEG_INF
      else if sbfpValue2 = SBFP_NAN then SBFP_NAN
      else SBFP_POS_INF
    else p0
  let p2 :=
    if sbfpValue1 = SBFP_POS_INF ∨ sbfpValue1 = SBFP_NEG_INF then
      if sbfpValue2 = SBFP_POS_INF then SBFP_NEG_INF
      else if sbfpValue2 = SBFP_NEG_INF then SBFP_POS_INF
      else if sbfpValue2 = SBFP_NAN then SBFP_NAN
      else SBFP_NEG_INF
    else p1
  let p3 :=
    if sbfpValue1 = SBFP_POS_INF ∨ sbfpValue1 = SBFP_NEG_INF ∨ sbfpValue1 = SBFP_NAN then
      if sbfpValue2 = SBFP_POS_INF then SBFP_NAN
      else if sbfpValue2 = SBFP_NEG_INF then SBFP_NAN
      else if sbfpValue2 = SBFP_NAN then SBFP_NAN
      else SBFP_NAN
    else p2
  if sbfpValue2 = SBFP_POS_INF then SBFP_POS_INF
  else if sbfpValue2 = SBFP_NEG_INF then SBFP_NEG_INF
  else if sbfpValue2 = SBFP_NAN then SBFP_NAN
  else p3

/-- The double-precision product built by the finite path of sbfp_mul
(sbfp_lib.c lines 414-508).  The fields of operand 1 are extracted by
masking and shifting; the source shifts sbfpValue1 again while extracting
the second operand (lines 439 and 442), so the exponent and sign of
operand 2 are masked out of the unshifted sbfpValue2: its exponent field
is its low 5 bits and its sign is its lowest bit.  E and M follow the
normalized or denormalized formulas, the signs are combined by XOR, and
the product M1 * M2 is scaled by 2 ^ (E1 + E2). -/
def sbfp_mul_finite_product (sbfpValue1 sbfpValue2 : ℕ) : ℚ :=
  let sbfpFrac1 := sbfpValue1 % 2 ^ SBFP_BIT_COUNT_FRAC
  let sbfpExpo1 := sbfpValue1 / 2 ^ SBFP_BIT_COUNT_FRAC % 2 ^ SBFP_BIT_COUNT_EXPO
  let sbfpSign1 :=
    sbfpValue1 / 2 ^ SBFP_BIT_COUNT_FRAC / 2 ^ SBFP_BIT_COUNT_EXPO % 2 ^ SBFP_BIT_COUNT_SIGN
  let sbfpFrac2 := sbfpValue2 % 2 ^ SBFP_BIT_COUNT_FRAC
  let sbfpExpo2 := sbfpValue2 % 2 ^ SBFP_BIT_COUNT_EXPO
  let sbfpSign2 := sbfpValue2 % 2 ^ SBFP_BIT_COUNT_SIGN
  let E1 : ℤ := if sbfpExpo1 = 0 then 1 - (SBFP_BIAS : ℤ) else (sbfpExpo1 : ℤ) - SBFP_BIAS
  let M1 : ℚ :=
    if sbfpExpo1 = 0 then (sbfpFrac1 : ℚ) / 2 ^ SBFP_BIT_COUNT_FRAC
    else 1 + (sbfpFrac1 : ℚ) / 2 ^ SBFP_BIT_COUNT_FRAC
  let E2 : ℤ := if sbfpExpo2 = 0 then 1 - (SBFP_BIAS : ℤ) else (sbfpExpo2 : ℤ) - SBFP_BIAS
  let M2 : ℚ :=
    if sbfpExpo2 = 0 then (sbfpFrac2 : ℚ) / 2 ^ SBFP_BIT_COUNT_FRAC
    else 1 + (sbfpFrac2 : ℚ) / 2 ^ SBFP_BIT_COUNT_FRAC
  let S : ℕ := sbfpSign1 ^^^ sbfpSign2
  let E : ℤ := E1 + E2
  let M : ℚ := M1 * M2
  let product0 : ℚ := if E < 0 then M / 2 ^ (-E).toNat else M * 2 ^ E.toNat
  if S = 1 then -product0 else product0

/-- sbfp_mul (sbfp_lib.c lines 391-514).  Reserved operands are dispatched
to handle_special_mul, whose value is returned (the final block is guarded
by the status flag).  Otherwise the finite-path product is computed and
re-encoded through double_to_sbfp. -/
def sbfp_mul (fuel : ℕ) (sbfpValue1 sbfpValue2 : ℕ) : Option ℕ :=
  if sbfpValue1 = SBFP_POS_INF ∨ sbfpValue1 = SBFP_NEG_INF ∨ sbfpValue1 = SBFP_NAN ∨
      sbfpValue2 = SBFP_POS_INF ∨ sbfpValue2 = SBFP_NEG_INF ∨ sbfpValue2 = SBFP_NAN then
    some (handle_special_mul sbfpValue1 sbfpValue2)
  else
    double_to_sbfp fuel (sbfp_mul_finite_product sbfpValue1 sbfpValue2)

/-- handle_special_add (sbfp_lib.c lines 524-612).  Same fall-through
switch structure as handle_special_mul, with the addition table entries. -/
def handle_special_add (sbfpValue1 sbfpValue2 : ℕ) : ℕ :=
  let s0 : ℕ := 0
  let s1 :=
    if sbfpValue1 = SBFP_POS_INF then
      if sbfpValue2 = SBFP_POS_INF then SBFP_POS_INF
      else if sbfpValue2 = SBFP_NEG_INF then SBFP_NAN
      else if sbfpValue2 = SBFP_NAN then SBFP_NAN
      else SBFP_POS_INF
    else s0
  let s2 :=
    if sbfpValue1 = SBFP_POS_INF ∨ sbfpValue1 = SBFP_NEG_INF then
      if sbfpValue2 = SBFP_POS_INF then SBFP_NAN
      else if sbfpValue2 = SBFP_NEG_INF then SBFP_NEG_INF
      else if sbfpValue2 = SBFP_NAN then SBFP_NAN
      else SBFP_NEG_INF
    else s1
  let s3 :=
    if sbfpValue1 = SBFP_POS_INF ∨ sbfpValue1 = SBFP_NEG_INF ∨ sbfpValue1 = SBFP_NAN then
      if sbfpValue2 = SBFP_POS_INF then SBFP_NAN
      else if sbfpValue2 = SBFP_NEG_INF then SBFP_NAN
      else if sbfpValue2 = SBFP_NAN then SBFP_NAN
      else SBFP_NAN
    else s2
  if sbfpValue2 = SBFP_POS_INF then SBFP_POS_INF
  else if sbfpValue2 = SBFP_NEG_INF then SBFP_NEG_INF
  else if sbfpValue2 = SBFP_NAN then SBFP_NAN
  else s3

/-- The double-precision sum built by the summation block of sbfp_add
(sbfp_lib.c lines 645-756), with special recording whether the status flag
was set by the special-value dispatch.  When special is true the
extraction and decomposition blocks are skipped, so the summation runs on
the C default values S1 = S2 = 1, E1 = E2 = 0, M1 = M2 = 0.0 (each
conditional below is one block guarded by the status flag in the source;
the sign factors need no guard because the default sign field value 0
already yields S = 1).  Exponents are aligned toward the smaller one and
the signed mantissas are summed, then scaled by 2 ^ E. -/
def sbfp_add_dbl_sum (special : Bool) (sbfpValue1 sbfpValue2 : ℕ) : ℚ :=
  let sbfpFrac1 := if special then 0 else sbfpValue1 % 2 ^ SBFP_BIT_COUNT_FRAC
  let sbfpExpo1 :=
    if special then 0 else sbfpValue1 / 2 ^ SBFP_BIT_COUNT_FRAC % 2 ^ SBFP_BIT_COUNT_EXPO
  let sbfpSign1 :=
    if special then 0
    else sbfpValue1 / 2 ^ SBFP_BIT_COUNT_FRAC / 2 ^ SBFP_BIT_COUNT_EXPO % 2 ^ SBFP_BIT_COUNT_SIGN
  let sbfpFrac2 := if special then 0 else sbfpValue2 % 2 ^ SBFP_BIT_COUNT_FRAC
  let sbfpExpo2 :=
    if special then 0 else sbfpValue2 / 2 ^ SBFP_BIT_COUNT_FRAC % 2 ^ SBFP_BIT_COUNT_EXPO
  let sbfpSign2 :=
    if special then 0
    else sbfpValue2 / 2 ^ SBFP_BIT_COUNT_FRAC / 2 ^ SBFP_BIT_COUNT_EXPO % 2 ^ SBFP_BIT_COUNT_SIGN
  let S1 : ℤ := if sbfpSign1 = 1 then -1 else 1
  let S2 : ℤ := if sbfpSign2 = 1 then -1 else 1
  let E1 : ℤ :=
    if special then 0
    else if sbfpExpo1 = 0 then 1 - (SBFP_BIAS : ℤ) else (sbfpExpo1 : ℤ) - SBFP_BIAS
  let M1 : ℚ :=
    if special then 0
    else if sbfpExpo1 = 0 then (sbfpFrac1 : ℚ) / 2 ^ SBFP_BIT_COUNT_FRAC
    else 1 + (sbfpFrac1 : ℚ) / 2 ^ SBFP_BIT_COUNT_FRAC
  let E2 : ℤ :=
    if special then 0
    else if sbfpExpo2 = 0 then 1 - (SBFP_BIAS : ℤ) else (sbfpExpo2 : ℤ) - SBFP_BIAS
  let M2 : ℚ :=
    if special then 0
    else if sbfpExpo2 = 0 then (sbfpFrac2 : ℚ) / 2 ^ SBFP_BIT_COUNT_FRAC
    else 1 + (sbfpFrac2 : ℚ) / 2 ^ SBFP_BIT_COUNT_FRAC
  let E : ℤ := if E1 > E2 then E2 else E1
  let M1b : ℚ := if E1 > E2 then M1 * 2 ^ (E1 - E2).toNat else M1
  let M2b : ℚ := if E1 > E2 then M2 else M2 * 2 ^ (E2 - E1).toNat
  let M : ℚ := (S1 : ℚ) * M1b + (S2 : ℚ) * M2b
  if E < 0 then M / 2 ^ (-E).toNat else M * 2 ^ E.toNat

/-- sbfp_add (sbfp_lib.c lines 622-761).  Reserved operands set the status
flag and call handle_special_add, but unlike sbfp_mul the final summation
block (lines 736-758) is not guarded by the status flag: it always runs
and always overwrites sbfpSum with double_to_sbfp of the computed sum.
The unused sbfpSum0 below is the overwritten handler value. -/
def sbfp_add (fuel : ℕ) (sbfpValue1 sbfpValue2 : ℕ) : Option ℕ :=
  let special : Bool :=
    decide (sbfpValue1 = SBFP_POS_INF ∨ sbfpValue1 = SBFP_NEG_INF ∨ sbfpValue1 = SBFP_NAN ∨
      sbfpValue2 = SBFP_POS_INF ∨ sbfpValue2 = SBFP_NEG_INF ∨ sbfpValue2 = SBFP_NAN)
  let _sbfpSum0 : ℕ := if special then handle_special_add sbfpValue1 sbfpValue2 else 0
  double_to_sbfp fuel (sbfp_add_dbl_sum special sbfpValue1 sbfpValue2)

/- General lemmas about the embedded functions. -/

lemma ctrunc_of_nonneg (x : ℚ) (h : 0 ≤ x) : ctrunc x = ⌊x⌋ := by
  unfold ctrunc
  rw [if_pos h]

lemma norm_loop_in_range (fuel : ℕ) (v : ℚ) (h : 1 ≤ v ∧ v < 2) :
    norm_loop fuel v = some (0, v) := by
  cases fuel <;> simp only [norm_loop, if_pos h]

lemma norm_loop_none : ∀ (fuel : ℕ) (v : ℚ), v < 1 → norm_loop fuel v = none
  | 0, v, hv => by
    have hc : ¬ (1 ≤ v ∧ v < 2) := fun hc => absurd hc.1 (not_le.mpr hv)
    simp only [norm_loop, if_neg hc]
  | fuel + 1, v, hv => by
    have hc : ¬ (1 ≤ v ∧ v < 2) := fun hc => absurd hc.1 (not_le.mpr hv)
    have ih := norm_loop_none fuel (v / 2) (by linarith)
    simp only [norm_loop, if_neg hc, ih, Option.map_none']

lemma norm_loop_sound : ∀ (fuel : ℕ) (v : ℚ) (E : ℕ) (w : ℚ),
    norm_loop fuel v = some (E, w) → 1 ≤ w ∧ w < 2 ∧ v = w * 2 ^ E
  | 0, v, E, w, h => by
    by_cases hc : 1 ≤ v ∧ v < 2
    · simp only [norm_loop, if_pos hc, Option.some.injEq, Prod.mk.injEq] at h
      obtain ⟨hE, hw⟩ := h
      subst hE
      subst hw
      exact ⟨hc.1, hc.2, by simp⟩
    · simp only [norm_loop, if_neg hc] at h
      exact Option.noConfusion h
  | fuel + 1, v, E, w, h => by
    by_cases hc : 1 ≤ v ∧ v < 2
    · simp only [norm_loop, if_pos hc, Option.some.injEq, Prod.mk.injEq] at h
      obtain ⟨hE, hw⟩ := h
      subst hE
      subst hw
      exact ⟨hc.1, hc.2, by simp⟩
    · simp only [norm_loop, if_neg hc] at h
      rcases hnl : norm_loop fuel (v / 2) with _ | ⟨E2, w2⟩
      · rw [hnl] at h
        simp at h
      · rw [hnl] at h
        simp only [Option.map_some', Option.some.injEq, Prod.mk.injEq] at h
        obtain ⟨hE, hw⟩ := h
        obtain ⟨h1, h2, h3⟩ := norm_loop_sound fuel (v / 2) E2 w2 hnl
        subst hE
        subst hw
        refine ⟨h1, h2, ?_⟩
        have hv2 : v = (v / 2) * 2 := by ring
        rw [hv2, h3]
        ring

lemma extract_frac_go_lt : ∀ (n : ℕ) (f : ℚ) (a : ℕ), extract_frac_go n f a < (a + 1) * 2 ^ n
  | 0, _, a => by
    simp only [extract_frac_go, pow_zero, mul_one]
    omega
  | n + 1, f, a => by
    by_cases hc : (1 : ℚ) ≤ f * 2
    · have ih := extract_frac_go_lt n (f * 2 - (ctrunc (f * 2) : ℚ)) (a * 2 + 1)
      simp only [extract_frac_go, if_pos hc]
      calc extract_frac_go n (f * 2 - (ctrunc (f * 2) : ℚ)) (a * 2 + 1)
          < (a * 2 + 1 + 1) * 2 ^ n := ih
        _ = (a + 1) * 2 ^ (n + 1) := by ring
    · have ih := extract_frac_go_lt n (f * 2) (a * 2)
      simp only [extract_frac_go, if_neg hc]
      calc extract_frac_go n (f * 2) (a * 2) < (a * 2 + 1) * 2 ^ n := ih
        _ ≤ (a + 1) * 2 ^ (n + 1) := by
            have hle : a * 2 + 1 ≤ (a + 1) * 2 := by omega
            calc (a * 2 + 1) * 2 ^ n ≤ ((a + 1) * 2) * 2 ^ n :=
                  Nat.mul_le_mul_right _ hle
              _ = (a + 1) * 2 ^ (n + 1) := by ring

lemma extract_frac_lt (v : ℚ) : extract_frac v < 2 ^ SBFP_BIT_COUNT_FRAC := by
  have h := extract_frac_go_lt SBFP_BIT_COUNT_FRAC (v - (ctrunc v : ℚ)) 0
  simpa [extract_frac] using h

lemma double_to_sbfp_sat_pos (fuel : ℕ) (x : ℚ) (hx : ¬ x < 0)
    (hsat : (2 : ℤ) ^ (SBFP_BIAS + 1) ≤ ctrunc x) :
    double_to_sbfp fuel x = some SBFP_POS_INF := by
  simp only [double_to_sbfp, if_neg hx]
  rw [if_pos hsat]
  simp

lemma double_to_sbfp_sat_neg (fuel : ℕ) (x : ℚ) (hx : x < 0)
    (hsat : (2 : ℤ) ^ (SBFP_BIAS + 1) ≤ ctrunc (-x)) :
    double_to_sbfp fuel x = some SBFP_NEG_INF := by
  simp only [double_to_sbfp, if_pos hx]
  rw [if_pos hsat]
  simp

lemma double_to_sbfp_den_pos (fuel : ℕ) (x : ℚ) (hx : ¬ x < 0)
    (hsat : ¬ (2 : ℤ) ^ (SBFP_BIAS + 1) ≤ ctrunc x)
    (hden : ctrunc x = 0 ∧
      x - (ctrunc x : ℚ) <
        ((2 ^ SBFP_BIT_COUNT_FRAC + 1 : ℚ) / 2 ^ SBFP_BIT_COUNT_FRAC) / 2 ^ (SBFP_BIAS - 1)) :
    double_to_sbfp fuel x =
      some ((0 * 2 ^ SBFP_BIT_COUNT_EXPO + 0) * 2 ^ SBFP_BIT_COUNT_FRAC +
        extract_frac (x * 2 ^ (SBFP_BIAS - 1))) := by
  simp only [double_to_sbfp, if_neg hx]
  rw [if_neg hsat, if_pos hden]

lemma double_to_sbfp_den_neg (fuel : ℕ) (x : ℚ) (hx : x < 0)
    (hsat : ¬ (2 : ℤ) ^ (SBFP_BIAS + 1) ≤ ctrunc (-x))
    (hden : ctrunc (-x) = 0 ∧
      -x - (ctrunc (-x) : ℚ) <
        ((2 ^ SBFP_BIT_COUNT_FRAC + 1 : ℚ) / 2 ^ SBFP_BIT_COUNT_FRAC) / 2 ^ (SBFP_BIAS - 1)) :
    double_to_sbfp fuel x =
      some ((1 * 2 ^ SBFP_BIT_COUNT_EXPO + 0) * 2 ^ SBFP_BIT_COUNT_FRAC +
        extract_frac (-x * 2 ^ (SBFP_BIAS - 1))) := by
  simp only [double_to_sbfp, if_pos hx]
  rw [if_neg hsat, if_pos hden]

lemma double_to_sbfp_norm_pos (fuel : ℕ) (x w : ℚ) (E : ℕ) (hx : ¬ x < 0)
    (hsat : ¬ (2 : ℤ) ^ (SBFP_BIAS + 1) ≤ ctrunc x)
    (hden : ¬ (ctrunc x = 0 ∧
      x - (ctrunc x : ℚ) <
        ((2 ^ SBFP_BIT_COUNT_FRAC + 1 : ℚ) / 2 ^ SBFP_BIT_COUNT_FRAC) / 2 ^ (SBFP_BIAS - 1)))
    (hnl : norm_loop fuel x = some (E, w)) :
    double_to_sbfp fuel x =
      some ((0 * 2 ^ SBFP_BIT_COUNT_EXPO + (E + SBFP_BIAS)) * 2 ^ SBFP_BIT_COUNT_FRAC +
        extract_frac w) := by
  simp only [double_to_sbfp, if_neg hx]
  rw [if_neg hsat, if_neg hden, hnl]

lemma double_to_sbfp_norm_neg (fuel : ℕ) (x w : ℚ) (E : ℕ) (hx : x < 0)
    (hsat : ¬ (2 : ℤ) ^ (SBFP_BIAS + 1) ≤ ctrunc (-x))
    (hden : ¬ (ctrunc (-x) = 0 ∧
      -x - (ctrunc (-x) : ℚ) <
        ((2 ^ SBFP_BIT_COUNT_FRAC + 1 : ℚ) / 2 ^ SBFP_BIT_COUNT_FRAC) / 2 ^ (SBFP_BIAS - 1)))
    (hnl : norm_loop fuel (-x) = some (E, w)) :
    double_to_sbfp fuel x =
      some ((1 * 2 ^ SBFP_BIT_COUNT_EXPO + (E + SBFP_BIAS)) * 2 ^ SBFP_BIT_COUNT_FRAC +
        extract_frac w) := by
  simp only [double_to_sbfp, if_pos hx]
  rw [if_neg hsat, if_neg hden, hnl]

lemma double_to_sbfp_noterm_pos (fuel : ℕ) (x : ℚ) (hx : ¬ x < 0)
    (hsat : ¬ (2 : ℤ) ^ (SBFP_BIAS + 1) ≤ ctrunc x)
    (hden : ¬ (ctrunc x = 0 ∧
      x - (ctrunc x : ℚ) <
        ((2 ^ SBFP_BIT_COUNT_FRAC + 1 : ℚ) / 2 ^ SBFP_BIT_COUNT_FRAC) / 2 ^ (SBFP_BIAS - 1)))
    (hnl : norm_loop fuel x = none) :
    double_to_sbfp fuel x = none := by
  simp only [double_to_sbfp, if_neg hx]
  rw [if_neg hsat, if_neg hden, hnl]

lemma double_to_sbfp_eval_norm (fuel : ℕ) (x w : ℚ) (E r : ℕ) (hx : ¬ x < 0)
    (hsat : ¬ (2 : ℤ) ^ (SBFP_BIAS + 1) ≤ ctrunc x)
    (hden : ¬ (ctrunc x = 0 ∧
      x - (ctrunc x : ℚ) <
        ((2 ^ SBFP_BIT_COUNT_FRAC + 1 : ℚ) / 2 ^ SBFP_BIT_COUNT_FRAC) / 2 ^ (SBFP_BIAS - 1)))
    (hnl : norm_loop fuel x = some (E, w))
    (hr : (0 * 2 ^ SBFP_BIT_COUNT_EXPO + (E + SBFP_BIAS)) * 2 ^ SBFP_BIT_COUNT_FRAC +
      extract_frac w = r) :
    double_to_sbfp fuel x = some r := by
  rw [double_to_sbfp_norm_pos fuel x w E hx hsat hden hnl, hr]

lemma encode_zero (fuel : ℕ) : double_to_sbfp fuel 0 = some 0 := by
  have h := double_to_sbfp_den_pos fuel 0 (lt_irrefl 0)
    (by with_unfolding_all decide) (by with_unfolding_all decide)
  rw [h]
  with_unfolding_all decide

lemma double_to_sbfp_below_one_none (fuel : ℕ) (x : ℚ) (h1 : 0 ≤ x)
    (h2 : ¬ x < ((2 ^ SBFP_BIT_COUNT_FRAC + 1 : ℚ) / 2 ^ SBFP_BIT_COUNT_FRAC) / 2 ^ (SBFP_BIAS - 1))
    (h3 : x < 1) :
    double_to_sbfp fuel x = none := by
  have hx : ¬ x < 0 := not_lt.mpr h1
  have hct : ctrunc x = 0 := by
    rw [ctrunc_of_nonneg x h1]
    exact Int.floor_eq_zero_iff.mpr (Set.mem_Ico.mpr ⟨h1, h3⟩)
  refine double_to_sbfp_noterm_pos fuel x hx ?_ ?_ (norm_loop_none fuel x h3)
  · rw [hct]
    with_unfolding_all decide
  · rintro ⟨hc0, hclt⟩
    rw [hct] at hclt
    push_cast at hclt
    rw [sub_zero] at hclt
    exact h2 hclt

lemma sbfp_mul_special (fuel : ℕ) (v1 v2 : ℕ)
    (h : v1 = SBFP_POS_INF ∨ v1 = SBFP_NEG_INF ∨ v1 = SBFP_NAN ∨
      v2 = SBFP_POS_INF ∨ v2 = SBFP_NEG_INF ∨ v2 = SBFP_NAN) :
    sbfp_mul fuel v1 v2 = some (handle_special_mul v1 v2) := by
  unfold sbfp_mul
  rw [if_pos h]

lemma sbfp_mul_finite (fuel : ℕ) (v1 v2 : ℕ)
    (h : ¬ (v1 = SBFP_POS_INF ∨ v1 = SBFP_NEG_INF ∨ v1 = SBFP_NAN ∨
      v2 = SBFP_POS_INF ∨ v2 = SBFP_NEG_INF ∨ v2 = SBFP_NAN)) :
    sbfp_mul fuel v1 v2 = double_to_sbfp fuel (sbfp_mul_finite_product v1 v2) := by
  unfold sbfp_mul
  rw [if_neg h]

lemma sbfp_add_eval (fuel : ℕ) (v1 v2 : ℕ) (b : Bool) (x : ℚ)
    (hb : decide (v1 = SBFP_POS_INF ∨ v1 = SBFP_NEG_INF ∨ v1 = SBFP_NAN ∨
      v2 = SBFP_POS_INF ∨ v2 = SBFP_NEG_INF ∨ v2 = SBFP_NAN) = b)
    (hx : sbfp_add_dbl_sum b v1 v2 = x) :
    sbfp_add fuel v1 v2 = double_to_sbfp fuel x := by
  simp only [sbfp_add, hb, hx]

lemma sbfp_add_dbl_sum_true (v1 v2 : ℕ) : sbfp_add_dbl_sum true v1 v2 = 0 := by
  simp [sbfp_add_dbl_sum]

/- Core lemma for sign preservation: for a positive magnitude below the
saturation bound, encoding the negated value takes the same branch with
sign bit 1, so the result is exactly the positive encoding plus 2 ^ 15,
and the positive encoding itself stays below 2 ^ 15. -/

lemma encode_pos_neg_pair (fuel : ℕ) (v : ℚ) (p : ℕ) (h0 : 0 < v) (hlt : v < 65536)
    (hp : double_to_sbfp fuel v = some p) :
    p < 2 ^ 15 ∧ double_to_sbfp fuel (-v) = some (p + 2 ^ 15) := by
  have hx : ¬ v < 0 := not_lt.mpr h0.le
  have hxn : -v < 0 := neg_lt_zero.mpr h0
  have hct : ctrunc v = ⌊v⌋ := ctrunc_of_nonneg v h0.le
  have hfl : ⌊v⌋ < 65536 := by
    have h1 : ((⌊v⌋ : ℚ)) ≤ v := Int.floor_le v
    have h2 : ((⌊v⌋ : ℚ)) < 65536 := lt_of_le_of_lt h1 hlt
    exact_mod_cast h2
  have hsat : ¬ (2 : ℤ) ^ (SBFP_BIAS + 1) ≤ ctrunc v := by
    rw [hct]
    simp only [SBFP_BIAS, SBFP_BIT_COUNT_EXPO]
    norm_num
    omega
  have hsatn : ¬ (2 : ℤ) ^ (SBFP_BIAS + 1) ≤ ctrunc (-(-v)) := by
    rw [neg_neg]
    exact hsat
  by_cases hden : ctrunc v = 0 ∧ v - (ctrunc v : ℚ) <
      ((2 ^ SBFP_BIT_COUNT_FRAC + 1 : ℚ) / 2 ^ SBFP_BIT_COUNT_FRAC) / 2 ^ (SBFP_BIAS - 1)
  · have hdenn : ctrunc (-(-v)) = 0 ∧ -(-v) - (ctrunc (-(-v)) : ℚ) <
        ((2 ^ SBFP_BIT_COUNT_FRAC + 1 : ℚ) / 2 ^ SBFP_BIT_COUNT_FRAC) / 2 ^ (SBFP_BIAS - 1) := by
      rw [neg_neg]
      exact hden
    rw [double_to_sbfp_den_pos fuel v hx hsat hden] at hp
    have hpv := Option.some.inj hp
    have hef := extract_frac_lt (v * 2 ^ (SBFP_BIAS - 1))
    simp only [SBFP_BIT_COUNT_FRAC, SBFP_BIT_COUNT_EXPO, SBFP_BIAS] at hpv hef
    constructor
    · omega
    · rw [double_to_sbfp_den_neg fuel (-v) hxn hsatn hdenn]
      rw [neg_neg]
      simp only [SBFP_BIT_COUNT_FRAC, SBFP_BIT_COUNT_EXPO, SBFP_BIAS, Option.some.injEq]
      omega
  · have hdenn : ¬ (ctrunc (-(-v)) = 0 ∧ -(-v) - (ctrunc (-(-v)) : ℚ) <
        ((2 ^ SBFP_BIT_COUNT_FRAC + 1 : ℚ) / 2 ^ SBFP_BIT_COUNT_FRAC) / 2 ^ (SBFP_BIAS - 1)) := by
      rw [neg_neg]
      exact hden
    rcases hnl : norm_loop fuel v with _ | ⟨E, w⟩
    · rw [double_to_sbfp_noterm_pos fuel v hx hsat hden hnl] at hp
      exact Option.noConfusion hp
    · rw [double_to_sbfp_norm_pos fuel v w E hx hsat hden hnl] at hp
      have hpv := Option.some.inj hp
      obtain ⟨hw1, hw2, hvw⟩ := norm_loop_sound fuel v E w hnl
      have hE : E ≤ 15 := by
        by_contra hE2
        push_neg at hE2
        have hp1 : (2 : ℚ) ^ 16 ≤ 2 ^ E := by
          apply pow_le_pow_right₀ (by norm_num : (1 : ℚ) ≤ 2)
          omega
        have hp2 : (2 : ℚ) ^ E ≤ w * 2 ^ E := le_mul_of_one_le_left (by positivity) hw1
        have h65 : (65536 : ℚ) ≤ v := by
          rw [hvw]
          calc (65536 : ℚ) = 2 ^ 16 := by norm_num
            _ ≤ 2 ^ E := hp1
            _ ≤ w * 2 ^ E := hp2
        linarith
      have hef := extract_frac_lt w
      have hnln : norm_loop fuel (-(-v)) = some (E, w) := by
        rw [neg_neg]
        exact hnl
      simp only [SBFP_BIT_COUNT_FRAC, SBFP_BIT_COUNT_EXPO, SBFP_BIAS] at hpv hef
      constructor
      · omega
      · rw [double_to_sbfp_norm_neg fuel (-v) w E hxn hsatn hdenn hnln]
        simp only [SBFP_BIT_COUNT_FRAC, SBFP_BIT_COUNT_EXPO, SBFP_BIAS, Option.some.injEq]
        omega

/- Claim theorems. -/

/-- Claim C1 (code bug): the section 4.2 special-value tables are not what
the code computes.  For multiplication the switch statement of
handle_special_mul falls through every case (no break statements), so the
default block wins: sbfp_mul(-Inf, +Inf) returns +Inf where the table
says -Inf.  For addition the summation block of sbfp_add is not guarded by
the status flag, so the dispatched handler value is overwritten and
sbfp_add(+Inf, +Inf) returns 0x0000 where the table says +Inf. -/
theorem C1_special_table_eval :
    sbfp_mul 0 SBFP_NEG_INF SBFP_POS_INF = some SBFP_POS_INF ∧
    sbfp_add 0 SBFP_POS_INF SBFP_POS_INF = some 0 := by
  constructor
  · rw [sbfp_mul_special 0 SBFP_NEG_INF SBFP_POS_INF (Or.inr (Or.inl rfl))]
    exact congrArg some (by with_unfolding_all decide)
  · rw [sbfp_add_eval 0 SBFP_POS_INF SBFP_POS_INF true 0 (by with_unfolding_all decide)
      (sbfp_add_dbl_sum_true SBFP_POS_INF SBFP_POS_INF), encode_zero]

/-- Claim C2 (code bug): infinity does not absorb a finite operand.
double_to_sbfp 5.0 = 0x4500, a non-reserved finite encoding, yet
sbfp_add(+Inf, 0x4500) returns 0x0000 (the unguarded summation block
overwrites the handler value with double_to_sbfp 0.0) and
sbfp_mul(+Inf, 0x4500) returns the NaN pattern (the fall-through switch
leaves the NaN-case assignment in place), where the claim expects +Inf in
both cases. -/
theorem C2_absorption_eval :
    double_to_sbfp 16 5 = some 0x4500 ∧
    sbfp_add 16 SBFP_POS_INF 0x4500 = some 0 ∧
    sbfp_mul 16 SBFP_POS_INF 0x4500 = some SBFP_NAN := by
  refine ⟨?_, ?_, ?_⟩
  · exact double_to_sbfp_eval_norm 16 5 (5 / 4) 2 0x4500 (by norm_num)
      (by with_unfolding_all decide) (by with_unfolding_all decide)
      (by with_unfolding_all decide) (by with_unfolding_all decide)
  · rw [sbfp_add_eval 16 SBFP_POS_INF 0x4500 true 0 (by with_unfolding_all decide)
      (sbfp_add_dbl_sum_true SBFP_POS_INF 0x4500), encode_zero]
  · rw [sbfp_mul_special 16 SBFP_POS_INF 0x4500 (Or.inl rfl)]
    exact congrArg some (by with_unfolding_all decide)

/-- Claim C3 (code bug): double_to_sbfp does not terminate on every
input.  For the magnitude 0.5 the denormal test fails (0.5 is not below
the threshold 1025/2^24), and the normalization loop only ever halves its
operand, so the loop condition 1 <= value < 2 can never become true: at
every fuel bound the loop is still running. -/
theorem C3_encode_half_diverges : ∀ fuel : ℕ, double_to_sbfp fuel (1 / 2) = none :=
  fun fuel => double_to_sbfp_below_one_none fuel (1 / 2) (by norm_num)
    (by norm_num [SBFP_BIT_COUNT_FRAC, SBFP_BIAS, SBFP_BIT_COUNT_EXPO]) (by norm_num)

/-- Claim C4 (code bug): the finite path of sbfp_mul does not extract the
fields of its second operand.  0x4000 decodes to 2.0, and the product
2.0 * 2.0 = 4.0 would encode to 0x4400; but the source shifts sbfpValue1
instead of sbfpValue2, so operand 2 of 0x4000 is read as exponent 0 and
fraction 0, a denormal zero, and sbfp_mul(0x4000, 0x4000) returns
0x0000. -/
theorem C4_mul_extraction_eval :
    sbfp_to_double 0x4000 = DoubleVal.fin 2 ∧
    double_to_sbfp 16 4 = some 0x4400 ∧
    sbfp_mul 16 0x4000 0x4000 = some 0 := by
  refine ⟨by with_unfolding_all decide, ?_, ?_⟩
  · exact double_to_sbfp_eval_norm 16 4 1 2 0x4400 (by norm_num)
      (by with_unfolding_all decide) (by with_unfolding_all decide)
      (by with_unfolding_all decide) (by with_unfolding_all decide)
  · rw [sbfp_mul_finite 16 0x4000 0x4000 (by with_unfolding_all decide)]
    have hprod : sbfp_mul_finite_product 0x4000 0x4000 = 0 := by
      with_unfolding_all decide
    rw [hprod, encode_zero]

/-- Claim C5 (code bug): the round-trip bound fails inside the
representable range because encoding diverges.  0.75 is an exactly
representable magnitude (0x3A00 under the stated format), but
double_to_sbfp(0.75) reaches the normalization loop, which only halves
and therefore never terminates, so decode(encode(0.75)) has no value at
all, let alone one within the 2^-10 relative error bound. -/
theorem C5_roundtrip_diverges : ∀ fuel : ℕ, double_to_sbfp fuel (3 / 4) = none :=
  fun fuel => double_to_sbfp_below_one_none fuel (3 / 4) (by norm_num)
    (by norm_num [SBFP_BIT_COUNT_FRAC, SBFP_BIAS, SBFP_BIT_COUNT_EXPO]) (by norm_num)

/-- Claim C6 counterexample: the three reserved patterns do not decode to
their named values.  0x3C00 has exponent field 15, not all-ones, so
sbfp_to_double(0x3C00) is the finite value 1.0, not +Inf; 0x7C00 has sign
bit 0, so it decodes to +Inf, not -Inf; and 0x3C01 decodes to the finite
value 1 + 2^-10, not NaN. -/
theorem C6_counterexample :
    sbfp_to_double SBFP_POS_INF ≠ DoubleVal.posInf ∧
    sbfp_to_double SBFP_NEG_INF ≠ DoubleVal.negInf ∧
    sbfp_to_double SBFP_NAN ≠ DoubleVal.nan := by
  with_unfolding_all decide

/-- Claim C6 (amended): the reserved positive-infinity pattern 0x3C00 has
sign bit 0, exponent field 15 (the bias, not all-ones) and fraction 0;
decode maps the all-ones-exponent patterns to the named values: 0x7C00
(sign 0) to +Inf, 0xFC00 (sign 1) to -Inf, and any all-ones-exponent
pattern with nonzero fraction to NaN; the reserved patterns 0x3C00 and
0x3C01 themselves decode as ordinary normalized finite values 1.0 and
1 + 2^-10. -/
theorem C6_decode_reserved :
    (SBFP_POS_INF % 2 ^ SBFP_BIT_COUNT_FRAC = 0 ∧
      SBFP_POS_INF / 2 ^ SBFP_BIT_COUNT_FRAC % 2 ^ SBFP_BIT_COUNT_EXPO = 15 ∧
      SBFP_POS_INF / 2 ^ SBFP_BIT_COUNT_FRAC / 2 ^ SBFP_BIT_COUNT_EXPO %
        2 ^ SBFP_BIT_COUNT_SIGN = 0) ∧
    sbfp_to_double 0x7C00 = DoubleVal.posInf ∧
    sbfp_to_double 0xFC00 = DoubleVal.negInf ∧
    (∀ v : ℕ, v / 2 ^ SBFP_BIT_COUNT_FRAC % 2 ^ SBFP_BIT_COUNT_EXPO =
        2 ^ SBFP_BIT_COUNT_EXPO - 1 →
      v % 2 ^ SBFP_BIT_COUNT_FRAC ≠ 0 → sbfp_to_double v = DoubleVal.nan) ∧
    sbfp_to_double SBFP_POS_INF = DoubleVal.fin 1 ∧
    sbfp_to_double SBFP_NAN = DoubleVal.fin (1 + 1 / 2 ^ SBFP_BIT_COUNT_FRAC) := by
  refine ⟨by with_unfolding_all decide, by with_unfolding_all decide,
    by with_unfolding_all decide, ?_, by with_unfolding_all decide,
    by with_unfolding_all decide⟩
  intro v h1 h2
  simp only [sbfp_to_double]
  rw [if_pos h1, if_neg h2]

/-- Claim C6 witness: the amended nan clause applied at the concrete
pattern 0x7C01, whose exponent field is all-ones and fraction is 1. -/
theorem C6_decode_reserved_witness :
    (31745 / 2 ^ SBFP_BIT_COUNT_FRAC % 2 ^ SBFP_BIT_COUNT_EXPO =
        2 ^ SBFP_BIT_COUNT_EXPO - 1 ∧
      31745 % 2 ^ SBFP_BIT_COUNT_FRAC ≠ 0) ∧
    sbfp_to_double 31745 = DoubleVal.nan :=
  ⟨⟨by with_unfolding_all decide, by with_unfolding_all decide⟩,
    C6_decode_reserved.2.2.2.1 31745 (by with_unfolding_all decide)
      (by with_unfolding_all decide)⟩

/-- Claim C7: saturation.  Every rational of magnitude at least 2^16 has
whole part at least 2^(SBFP_BIAS + 1), so double_to_sbfp short-circuits
before the normalization loop (at any fuel) and returns the signed
infinity pattern: 0x3C00 for x at least 2^16, 0x7C00 for x at most
-2^16. -/
theorem C7_saturation : ∀ (x : ℚ) (fuel : ℕ),
    (65536 ≤ x → double_to_sbfp fuel x = some SBFP_POS_INF) ∧
    (x ≤ -65536 → double_to_sbfp fuel x = some SBFP_NEG_INF) := by
  intro x fuel
  constructor
  · intro h
    apply double_to_sbfp_sat_pos fuel x (not_lt.mpr (by linarith))
    rw [ctrunc_of_nonneg x (by linarith)]
    refine Int.le_floor.mpr ?_
    push_cast
    norm_num [SBFP_BIAS, SBFP_BIT_COUNT_EXPO]
    linarith
  · intro h
    apply double_to_sbfp_sat_neg fuel x (by linarith)
    rw [ctrunc_of_nonneg (-x) (by linarith)]
    refine Int.le_floor.mpr ?_
    push_cast
    norm_num [SBFP_BIAS, SBFP_BIT_COUNT_EXPO]
    linarith

/-- Claim C7 witness: saturation applied at the concrete inputs 65536 and
-65536 with fuel 0. -/
theorem C7_saturation_witness :
    ((65536 : ℚ) ≤ 65536 ∧ double_to_sbfp 0 65536 = some SBFP_POS_INF) ∧
    ((-65536 : ℚ) ≤ -65536 ∧ double_to_sbfp 0 (-65536) = some SBFP_NEG_INF) :=
  ⟨⟨le_refl _, (C7_saturation 65536 0).1 (le_refl _)⟩,
    ⟨le_refl _, (C7_saturation (-65536) 0).2 (le_refl _)⟩⟩

/-- Claim C8 counterexample: sign preservation fails at x = 65536.  Both
encodings saturate: double_to_sbfp(65536) = 0x3C00 and
double_to_sbfp(-65536) = 0x7C00, and both patterns have top bit 0, so
the stated equivalence (sign bit of encode(-x) is 1 iff sign bit of
encode(x) is 0) is false there. -/
theorem C8_counterexample :
    double_to_sbfp 0 65536 = some SBFP_POS_INF ∧
    double_to_sbfp 0 (-65536) = some SBFP_NEG_INF ∧
    ¬ (SBFP_NEG_INF / 2 ^ 15 % 2 = 1 ↔ SBFP_POS_INF / 2 ^ 15 % 2 = 0) := by
  refine ⟨double_to_sbfp_sat_pos 0 65536 (by norm_num) (by with_unfolding_all decide),
    double_to_sbfp_sat_neg 0 (-65536) (by norm_num) (by with_unfolding_all decide),
    by with_unfolding_all decide⟩

/-- Claim C8 (amended): for every nonzero x whose magnitude is below the
saturation bound 2^16, whenever double_to_sbfp returns a value for x and
for -x at a given fuel, the value for -x has sign bit 1 iff the value for
x has sign bit 0; and 0.0 always encodes to 0x0000, whose sign bit is 0.
The original claim over all nonzero doubles fails at the saturating
magnitudes (see the counterexample). -/
theorem C8_sign_preservation :
    (∀ (x : ℚ) (fuel : ℕ) (p q : ℕ), x ≠ 0 → -65536 < x → x < 65536 →
      double_to_sbfp fuel x = some p → double_to_sbfp fuel (-x) = some q →
      (q / 2 ^ 15 % 2 = 1 ↔ p / 2 ^ 15 % 2 = 0)) ∧
    ∀ fuel : ℕ, double_to_sbfp fuel 0 = some 0 := by
  constructor
  · intro x fuel p q hx0 hlo hhi hp hq
    have h215 : (2 : ℕ) ^ 15 = 32768 := by norm_num
    rcases lt_trichotomy x 0 with hneg | hzero | hpos
    · have h0 : 0 < -x := by linarith
      have hlt : -x < 65536 := by linarith
      obtain ⟨hqlt, hp2⟩ := encode_pos_neg_pair fuel (-x) q h0 hlt hq
      rw [neg_neg, hp] at hp2
      have hpq := Option.some.inj hp2
      rw [h215] at hqlt hpq ⊢
      omega
    · exact absurd hzero hx0
    · obtain ⟨hplt, hq2⟩ := encode_pos_neg_pair fuel x p hpos hhi hp
      rw [hq] at hq2
      have hqp := Option.some.inj hq2
      rw [h215] at hplt hqp ⊢
      omega
  · exact encode_zero

/-- Claim C8 witness: the amended sign-preservation property applied at
x = 1 with fuel 0: encode(1) = 0x3C00 (sign bit 0) and encode(-1) =
0xBC00 (sign bit 1). -/
theorem C8_sign_preservation_witness :
    ((1 : ℚ) ≠ 0 ∧ (-65536 : ℚ) < 1 ∧ (1 : ℚ) < 65536 ∧
      double_to_sbfp 0 1 = some 15360 ∧ double_to_sbfp 0 (-1) = some 48128) ∧
    (48128 / 2 ^ 15 % 2 = 1 ↔ 15360 / 2 ^ 15 % 2 = 0) := by
  have h1 : double_to_sbfp 0 1 = some 15360 :=
    double_to_sbfp_eval_norm 0 1 1 0 15360 (by norm_num) (by with_unfolding_all decide)
      (by with_unfolding_all decide) (norm_loop_in_range 0 1 (by norm_num))
      (by with_unfolding_all decide)
  have h2 : double_to_sbfp 0 (-1) = some 48128 := by
    have hpair := (encode_pos_neg_pair 0 1 15360 (by norm_num) (by norm_num) h1).2
    norm_num at hpair
    exact hpair
  exact ⟨⟨by norm_num, by norm_num, by norm_num, h1, h2⟩,
    C8_sign_preservation.1 1 0 15360 48128 (by norm_num) (by norm_num) (by norm_num) h1 h2⟩

/-- Claim C9 (code bug): the identity cases.  encode(1.0) = 0x3C00, which
collides with the +Inf pattern; sbfp_mul(0x3C00, 0x3C00) is dispatched to
the special handler and happens to return 0x3C00, so the multiplication
identity holds only through that collision.  encode(1.5) = 0x3E00, but
the claimed sum add(encode(1.5), encode(0.5)) never happens:
double_to_sbfp(0.5) diverges in the normalization loop at every fuel
bound, so the addition case has no value to compare with encode(2.0). -/
theorem C9_identity_eval :
    double_to_sbfp 0 1 = some SBFP_POS_INF ∧
    sbfp_mul 0 SBFP_POS_INF SBFP_POS_INF = some SBFP_POS_INF ∧
    double_to_sbfp 0 (3 / 2) = some 0x3E00 ∧
    ∀ fuel : ℕ, double_to_sbfp fuel (1 / 2) = none := by
  refine ⟨?_, ?_, ?_, ?_⟩
  · exact double_to_sbfp_eval_norm 0 1 1 0 SBFP_POS_INF (by norm_num)
      (by with_unfolding_all decide) (by with_unfolding_all decide)
      (norm_loop_in_range 0 1 (by norm_num)) (by with_unfolding_all decide)
  · rw [sbfp_mul_special 0 SBFP_POS_INF SBFP_POS_INF (Or.inl rfl)]
    exact congrArg some (by with_unfolding_all decide)
  · exact double_to_sbfp_eval_norm 0 (3 / 2) (3 / 2) 0 0x3E00 (by norm_num)
      (by with_unfolding_all decide) (by with_unfolding_all decide)
      (norm_loop_in_range 0 (3 / 2) (by norm_num)) (by with_unfolding_all decide)
  · exact fun fuel => double_to_sbfp_below_one_none fuel (1 / 2) (by norm_num)
      (by norm_num [SBFP_BIT_COUNT_FRAC, SBFP_BIAS, SBFP_BIT_COUNT_EXPO]) (by norm_num)

/-- Claim C10: reserved-pattern collision.  encode(1.0) = 0x3C00 =
SBFP_POS_INF and encode(1 + 2^-10) = 0x3C01 = SBFP_NAN at every fuel, and
both arithmetic entry points treat these finite encodings as special:
sbfp_mul dispatches them to handle_special_mul, and sbfp_add takes its
special branch instead of the finite path (the dispatched handler value is
then overwritten, so sbfp_add returns double_to_sbfp of 0.0). -/
theorem C10_reserved_collision :
    (∀ fuel : ℕ, double_to_sbfp fuel 1 = some SBFP_POS_INF) ∧
    (∀ fuel : ℕ, double_to_sbfp fuel (1 + 1 / 2 ^ 10) = some SBFP_NAN) ∧
    (∀ (fuel x : ℕ), sbfp_mul fuel SBFP_POS_INF x = some (handle_special_mul SBFP_POS_INF x)) ∧
    (∀ (fuel x : ℕ), sbfp_mul fuel SBFP_NAN x = some (handle_special_mul SBFP_NAN x)) ∧
    (∀ (fuel x : ℕ), sbfp_add fuel SBFP_POS_INF x = double_to_sbfp fuel 0) ∧
    (∀ (fuel x : ℕ), sbfp_add fuel SBFP_NAN x = double_to_sbfp fuel 0) := by
  refine ⟨?_, ?_, ?_, ?_, ?_, ?_⟩
  · exact fun fuel => double_to_sbfp_eval_norm fuel 1 1 0 SBFP_POS_INF (by norm_num)
      (by with_unfolding_all decide) (by with_unfolding_all decide)
      (norm_loop_in_range fuel 1 (by norm_num)) (by with_unfolding_all decide)
  · exact fun fuel => double_to_sbfp_eval_norm fuel (1 + 1 / 2 ^ 10) (1 + 1 / 2 ^ 10) 0 SBFP_NAN
      (by norm_num) (by with_unfolding_all decide) (by with_unfolding_all decide)
      (norm_loop_in_range fuel (1 + 1 / 2 ^ 10) (by norm_num)) (by with_unfolding_all decide)
  · exact fun fuel x => sbfp_mul_special fuel SBFP_POS_INF x (Or.inl rfl)
  · exact fun fuel x => sbfp_mul_special fuel SBFP_NAN x (Or.inr (Or.inr (Or.inl rfl)))
  · exact fun fuel x => sbfp_add_eval fuel SBFP_POS_INF x true 0
      (decide_eq_true (Or.inl rfl)) (sbfp_add_dbl_sum_true SBFP_POS_INF x)
  · exact fun fuel x => sbfp_add_eval fuel SBFP_NAN x true 0
      (decide_eq_true (Or.inr (Or.inr (Or.inl rfl)))) (sbfp_add_dbl_sum_true SBFP_NAN x)
